import Mathlib

/-!
Verification of the tag store, proxy manifest store and manifest link
resolution of the distribution registry's content-addressed storage core.

The backend storage driver is modelled as an association list of
(path, content) files together with an explicit fault schedule: each driver
primitive consumes one schedule entry, and an entry `some e` makes that
primitive fail with the driver error `e` while leaving the files unchanged
(spec section 4.1: the driver may fail any single operation; distinct-path
operations are independent and same-path writes are last-writer-wins).
Paths are sequences of segments, mirroring the on-disk layout of spec
section 6.
-/

/-- A backend path, as the list of its `/`-separated segments. -/
abbrev RegPath := List String

/-- Character class for digest algorithm names.  Modelled from the spec:
a digest is `<algorithm>:<hex>` with the algorithm a lowercase alphanumeric
word such as `sha256`. -/
def isAlgChar (c : Char) : Bool :=
  c.isLower || c.isDigit

/-- Character class for the encoded (hex) portion of a digest.  Modelled from
the spec: the encoded portion is alphanumeric (plus `=`, `_`, `-` as in the
go-digest grammar); in particular it never contains `:` or a newline. -/
def isEncChar (c : Char) : Bool :=
  c.isAlphanum || c = '=' || c = '_' || c = '-'

/-- A digest `<algorithm>:<hex>`, the identity of any blob or manifest. -/
structure Digest where
  algorithm : String
  hex : String
deriving DecidableEq, Repr

/-- Well-formedness of a digest: nonempty algorithm and encoded portion over
the allowed character classes. -/
def Digest.valid (d : Digest) : Bool :=
  !d.algorithm.data.isEmpty && d.algorithm.data.all isAlgChar &&
    !d.hex.data.isEmpty && d.hex.data.all isEncChar

/-- The canonical string form `<algorithm>:<hex>` of a digest; this is the
exact payload of a link file (spec section 6). -/
def digestString (d : Digest) : String :=
  d.algorithm ++ ":" ++ d.hex

/-- Split a character sequence at the first colon. -/
def splitAtColon : List Char → Option (List Char × List Char)
  | [] => none
  | c :: rest =>
    if c = ':' then some ([], rest)
    else (splitAtColon rest).map (fun p => (c :: p.1, p.2))

/-- Strip a single trailing newline.  Modelled from the spec: link files are
a single ASCII line with no trailing newline required, but implementations
MUST tolerate one (spec section 6). -/
def stripNewline : List Char → List Char
  | [] => []
  | c :: rest =>
    if rest = [] then (if c = '\n' then [] else [c])
    else c :: stripNewline rest

/-- Parse the contents of a link file into a digest.  Modelled from the spec:
the payload is `<algorithm>:<hex>` (optionally newline-terminated); anything
else is rejected as an invalid digest. -/
def parseDigest (s : String) : Option Digest :=
  match splitAtColon (stripNewline s.data) with
  | some (a, h) =>
    let d : Digest := ⟨⟨a⟩, ⟨h⟩⟩
    if d.valid then some d else none
  | none => none

/-- A descriptor referencing a blob (spec section 3). -/
structure Descriptor where
  mediaType : String
  digest : Digest
  size : Int
deriving DecidableEq, Repr

/-! ## Path mapper

Modelled from the spec: `pathFor` is a pure, stable translation of semantic
keys to backend paths; the layout below is the one of spec section 6. -/

/-- The stable path root `/docker/registry/v2/` (spec section 6). -/
def rootRegPath : RegPath := ["docker", "registry", "v2"]

/-- `repositories/<name>/_manifests/tags` — the tags directory. -/
def manifestTagsPath (name : String) : RegPath :=
  rootRegPath ++ ["repositories", name, "_manifests", "tags"]

/-- `.../tags/<tag>` — one tag's directory. -/
def manifestTagPath (name tag : String) : RegPath :=
  manifestTagsPath name ++ [tag]

/-- `.../tags/<tag>/current/link` — the tag's current link. -/
def manifestTagCurrentPath (name tag : String) : RegPath :=
  manifestTagPath name tag ++ ["current", "link"]

/-- `.../tags/<tag>/index` — the tag's history index directory. -/
def manifestTagIndexPath (name tag : String) : RegPath :=
  manifestTagPath name tag ++ ["index"]

/-- `.../tags/<tag>/index/<alg>/<hex>/link` — one history index entry. -/
def manifestTagIndexEntryLinkPath (name tag : String) (d : Digest) : RegPath :=
  manifestTagIndexPath name tag ++ [d.algorithm, d.hex, "link"]

/-- `repositories/<name>/_manifests/revisions/<alg>/<hex>/link` — the
canonical manifest revision link. -/
def manifestRevisionLinkPath (name : String) (d : Digest) : RegPath :=
  rootRegPath ++ ["repositories", name, "_manifests", "revisions", d.algorithm, d.hex, "link"]

/-- `repositories/<name>/_layers/<alg>/<hex>/link` — the layer (blob) link,
which v2.1.0 mistakenly also used for manifests. -/
def blobLinkPath (name : String) (d : Digest) : RegPath :=
  rootRegPath ++ ["repositories", name, "_layers", d.algorithm, d.hex, "link"]

/-! ## Errors -/

/-- Errors produced by the storage driver itself (spec section 4.1). -/
inductive DriverErr where
  | pathNotFound (p : RegPath)
  | io (code : Nat)
deriving DecidableEq, Repr

/-- Errors surfaced by the storage core (spec section 7), together with the
driver errors they wrap. -/
inductive RegErr where
  | driver (e : DriverErr)
  | invalidDigest (content : String)
  | tagUnknown (tag : String)
  | repositoryUnknown (name : String)
  | blobUnknown (d : Digest)
  | manifestUnknown (d : Digest)
  | msg (s : String)
deriving DecidableEq, Repr

/-! ## Storage driver state -/

/-- Find the content stored at a path (first match wins, so consing a new
entry models an atomic overwrite). -/
def lookupFile : List (RegPath × String) → RegPath → Option String
  | [], _ => none
  | pc :: rest, p => if pc.1 = p then some pc.2 else lookupFile rest p

/-- Overwrite the content at a path. -/
def insertFile (files : List (RegPath × String)) (p : RegPath) (c : String) :
    List (RegPath × String) :=
  (p, c) :: files

/-- Does `dir` lead `p`, i.e. is every segment of `dir` the corresponding
leading segment of `p`? -/
def segsLead : RegPath → RegPath → Bool
  | [], _ => true
  | _ :: _, [] => false
  | d :: ds, q :: qs => d = q && segsLead ds qs

/-- The state of the backend: the stored files plus the fault schedule.
An exhausted schedule means no further faults. -/
structure DriverState where
  files : List (RegPath × String)
  faults : List (Option DriverErr)
deriving DecidableEq, Repr

/-- Consume the next fault-schedule entry. -/
def DriverState.popFault : DriverState → Option DriverErr × DriverState
  | ⟨fs, []⟩ => (none, ⟨fs, []⟩)
  | ⟨fs, f :: rest⟩ => (f, ⟨fs, rest⟩)

/-- Modelled from the spec: `GetContent(path) → bytes | NotFound`
(spec section 4.1; the source's driver implementations are out of src). -/
def driverGetContent (s : DriverState) (p : RegPath) :
    Except RegErr String × DriverState :=
  match s.popFault with
  | (some e, s1) => (.error (.driver e), s1)
  | (none, s1) =>
    match lookupFile s1.files p with
    | some c => (.ok c, s1)
    | none => (.error (.driver (.pathNotFound p)), s1)

/-- Modelled from the spec: `PutContent(path, bytes)`, an atomic overwrite
(spec section 4.1). -/
def driverPutContent (s : DriverState) (p : RegPath) (c : String) :
    Except RegErr Unit × DriverState :=
  match s.popFault with
  | (some e, s1) => (.error (.driver e), s1)
  | (none, s1) => (.ok (), ⟨insertFile s1.files p c, s1.faults⟩)

/-- The immediate children of a directory, derived from the stored files:
`dir/<seg>` is a child exactly when some file lies strictly below `dir`. -/
def childrenOf (files : List (RegPath × String)) (dir : RegPath) : List RegPath :=
  (files.filterMap (fun pc =>
    if segsLead dir pc.1 && decide (dir.length < pc.1.length)
    then some (dir ++ [(pc.1.drop dir.length).headD ""])
    else none)).dedup

/-- Modelled from the spec: `List(path) → sequence<childPath> | NotFound`,
unordered (spec section 4.1); a directory exists exactly when some object
lies below it. -/
def driverList (s : DriverState) (dir : RegPath) :
    Except RegErr (List RegPath) × DriverState :=
  match s.popFault with
  | (some e, s1) => (.error (.driver e), s1)
  | (none, s1) =>
    let cs := childrenOf s1.files dir
    if cs.isEmpty then (.error (.driver (.pathNotFound dir)), s1)
    else (.ok cs, s1)

/-! ## Blob-store link helpers

Modelled from the spec: a link is a tiny backend object whose payload is a
single digest string (spec sections 3 and 6); `link` overwrites it and
`readlink` reads and parses it (invariant I2).  The source of these helpers
is outside src; only their callers in the tag store are in src. -/

/-- Modelled from the spec: `blobStore.link` writes the digest string at the
link path. -/
def blobStoreLink (s : DriverState) (p : RegPath) (d : Digest) :
    Except RegErr Unit × DriverState :=
  driverPutContent s p (digestString d)

/-- Modelled from the spec: `blobStore.readlink` reads the link file and
parses its payload as a digest; unparseable payload is an invalid-digest
error distinct from `PathNotFound`. -/
def blobStoreReadlink (s : DriverState) (p : RegPath) :
    Except RegErr Digest × DriverState :=
  let (r, s1) := driverGetContent s p
  match r with
  | .error e => (.error e, s1)
  | .ok c =>
    match parseDigest c with
    | some d => (.ok d, s1)
    | none => (.error (.invalidDigest c), s1)

/-! ## Tag store (from `TagStore` in the source) -/

/-- The final segment of a path (Go's `path.Split` filename part). -/
def lastSeg : RegPath → String
  | [] => ""
  | a :: rest => if rest = [] then a else lastSeg rest

/-- Insert a string into a lexicographically sorted list. -/
def insertSorted (x : String) : List String → List String
  | [] => [x]
  | y :: ys => if x ≤ y then x :: y :: ys else y :: insertSorted x ys

/-- Sort strings ascending (the model of Go's `sort.Strings`). -/
def sortStrings (l : List String) : List String :=
  l.foldr insertSorted []

/-- `TagStore.All`: list the children of the tags directory, turn a
`PathNotFound` into `ErrRepositoryUnknown`, keep each entry's final path
segment and sort the names before returning. -/
def tagStoreAll (name : String) (s : DriverState) :
    Except RegErr (List String) × DriverState :=
  let (r, s1) := driverList s (manifestTagsPath name)
  match r with
  | .error (.driver (.pathNotFound _)) => (.error (.repositoryUnknown name), s1)
  | .error e => (.error e, s1)
  | .ok entries => (.ok (sortStrings (entries.map lastSeg)), s1)

/-- `TagStore.Tag`: first link the descriptor's digest into the tag's history
index (via the tag-scoped linked blob store), then overwrite the tag's
current link; the first failure is returned as is. -/
def tagStoreTag (name : String) (s : DriverState) (tag : String) (desc : Descriptor) :
    Except RegErr Unit × DriverState :=
  let (r1, s1) := blobStoreLink s (manifestTagIndexEntryLinkPath name tag desc.digest) desc.digest
  match r1 with
  | .error e => (.error e, s1)
  | .ok _ => blobStoreLink s1 (manifestTagCurrentPath name tag) desc.digest

/-- `TagStore.Get`: read the tag's current link; a `PathNotFound` becomes
`ErrTagUnknown`, any other error is propagated, and on success a descriptor
carrying only the linked digest is returned. -/
def tagStoreGet (name : String) (s : DriverState) (tag : String) :
    Except RegErr Descriptor × DriverState :=
  let (r, s1) := blobStoreReadlink s (manifestTagCurrentPath name tag)
  match r with
  | .error (.driver (.pathNotFound _)) => (.error (.tagUnknown tag), s1)
  | .error e => (.error e, s1)
  | .ok revision => (.ok { mediaType := "", digest := revision, size := 0 }, s1)

/-- The per-tag body of `TagStore.Lookup`, sequentialized: read each tag's
current link, skip the tag on `PathNotFound`, abort on any other error, and
keep the tags whose current digest equals the wanted one. -/
def lookupLoop (name : String) (desc : Descriptor) :
    List String → DriverState → Except RegErr (List String) × DriverState
  | [], s => (.ok [], s)
  | t :: ts, s =>
    let (r, s1) := blobStoreReadlink s (manifestTagCurrentPath name t)
    match r with
    | .error (.driver (.pathNotFound _)) => lookupLoop name desc ts s1
    | .error e => (.error e, s1)
    | .ok d =>
      let (r2, s2) := lookupLoop name desc ts s1
      match r2 with
      | .ok rest => (.ok (if d = desc.digest then t :: rest else rest), s2)
      | .error e => (.error e, s2)

/-- `TagStore.Lookup`: list all tags (treating `ErrRepositoryUnknown` from
`All` as an empty tag list), then filter them by their current digest. -/
def tagStoreLookup (name : String) (s : DriverState) (desc : Descriptor) :
    Except RegErr (List String) × DriverState :=
  let (ra, s1) := tagStoreAll name s
  match ra with
  | .ok allTags => lookupLoop name desc allTags s1
  | .error (.repositoryUnknown _) => lookupLoop name desc [] s1
  | .error e => (.error e, s1)

/-! ## Manifest link resolution (from `repository.Manifests` in the source) -/

/-- A link path family, selecting where a role's links live. -/
abbrev LinkPathFn := String → Digest → RegPath

/-- The link path families the manifest service searches, in order: the
canonical manifest revision link path first, then the legacy layer link path
that v2.1.0 unintentionally wrote manifests under (from the
`manifestLinkPathFns` slice built by `repository.Manifests`). -/
def manifestLinkPathFns : List LinkPathFn :=
  [manifestRevisionLinkPath, blobLinkPath]

/-- Modelled from the spec: the linked blob statter resolves a digest by
trying each configured link path in order; a `PathNotFound` on one path falls
through to the next, any other error is surfaced, and exhausting every path
yields `ErrBlobUnknown` (spec section 4.4; the statter's source is outside
src, only its construction in `repository.Manifests` is in src). -/
def resolveLinkPathFns (fns : List LinkPathFn) (name : String) (s : DriverState)
    (d : Digest) : Except RegErr Digest × DriverState :=
  match fns with
  | [] => (.error (.blobUnknown d), s)
  | fn :: rest =>
    let (r, s1) := blobStoreReadlink s (fn name d)
    match r with
    | .error (.driver (.pathNotFound _)) => resolveLinkPathFns rest name s1 d
    | .error e => (.error e, s1)
    | .ok dg => (.ok dg, s1)

/-- Modelled from the spec: writes always use the canonical link path for the
role, which is the first-listed link path family (spec section 4.4). -/
def writeLinkFirstFn (fns : List LinkPathFn) (name : String) (s : DriverState)
    (desc : Descriptor) : Except RegErr Unit × DriverState :=
  match fns with
  | [] => (.error (.msg "no link path"), s)
  | fn :: _ => blobStoreLink s (fn name desc.digest) desc.digest

/-! ## Proxy manifest store (from `proxyManifestStore` in the source) -/

/-- A manifest together with its payload bytes (`Payload()`), modelled as the
payload alone since only the payload is consulted. -/
structure SignedManifest where
  payload : String
deriving DecidableEq, Repr

/-- The remote registry client of the proxy: an abstract responder for
by-digest and by-tag manifest fetches. -/
structure RemoteManifests where
  get : Digest → Except RegErr SignedManifest
  getByTag : String → Except RegErr SignedManifest

/-- `localManifests.Get`: look the digest up in the local store. -/
def localManifestsGet (lm : List (Digest × SignedManifest)) (d : Digest) :
    Except RegErr SignedManifest :=
  match lm.find? (fun e => e.1 = d) with
  | some e => .ok e.2
  | none => .error (.manifestUnknown d)

/-- `localManifests.Exists`: membership of the digest in the local store. -/
def localManifestsExists (lm : List (Digest × SignedManifest)) (d : Digest) : Bool :=
  (lm.find? (fun e => e.1 = d)).isSome

/-- `localManifests.Put`: store the manifest under the digest of its payload
(the local manifest store is content addressed). -/
def localManifestsPut (hash : String → Digest) (lm : List (Digest × SignedManifest))
    (sm : SignedManifest) : List (Digest × SignedManifest) :=
  (hash sm.payload, sm) :: lm

/-- Nanoseconds in a minute (Go's `time.Minute`). -/
def minuteNs : Nat := 60 * 1000000000

/-- `repositoryTTL = time.Duration(10 * time.Minute)`: the fixed TTL the
proxy schedules evictions with. -/
def repositoryTTL : Nat := 10 * minuteNs

/-- Modelled from the spec: `scheduler.AddManifest(repo, ttl)` records an
eviction entry for the repository; re-adding an existing key extends its
expiry to the maximum of the old and new one (spec section 4.9; the
scheduler's source is outside src, only its callers are). -/
def schedulerAddManifest : List (String × Nat) → String → Nat → List (String × Nat)
  | [], repo, ttl => [(repo, ttl)]
  | (r, t) :: rest, repo, ttl =>
    if r = repo then (r, max t ttl) :: rest
    else (r, t) :: schedulerAddManifest rest repo ttl

/-- The proxy manifest store: the local store contents, the remote client,
the repository name, the digest function over payload bytes
(`digest.FromBytes`), and the eviction scheduler's entries. -/
structure ProxyManifestStore where
  localManifests : List (Digest × SignedManifest)
  remoteManifests : RemoteManifests
  repositoryName : String
  digestFromBytes : String → Digest
  scheduler : List (String × Nat)

/-- `proxyManifestStore.Get`: serve from the local store when the lookup
succeeds; otherwise fetch from the remote, store locally and schedule an
eviction entry with `repositoryTTL`. -/
def ProxyManifestStore.Get (pms : ProxyManifestStore) (d : Digest) :
    Except RegErr SignedManifest × ProxyManifestStore :=
  match localManifestsGet pms.localManifests d with
  | .ok sm => (.ok sm, pms)
  | .error _ =>
    match pms.remoteManifests.get d with
    | .error e => (.error e, pms)
    | .ok sm =>
      (.ok sm,
        { pms with
          localManifests := localManifestsPut pms.digestFromBytes pms.localManifests sm,
          scheduler := schedulerAddManifest pms.scheduler pms.repositoryName repositoryTTL })

/-- `proxyManifestStore.GetByTag`: always fetch from the remote first; on a
remote error return it unchanged; otherwise hash the fetched payload, return
the fetched manifest directly when that digest already exists locally, and
otherwise store it locally and schedule an eviction entry. -/
def ProxyManifestStore.GetByTag (pms : ProxyManifestStore) (tag : String) :
    Except RegErr SignedManifest × ProxyManifestStore :=
  match pms.remoteManifests.getByTag tag with
  | .error e => (.error e, pms)
  | .ok sm =>
    let digestFromRemote := pms.digestFromBytes sm.payload
    if localManifestsExists pms.localManifests digestFromRemote then (.ok sm, pms)
    else
      (.ok sm,
        { pms with
          localManifests := localManifestsPut pms.digestFromBytes pms.localManifests sm,
          scheduler := schedulerAddManifest pms.scheduler pms.repositoryName repositoryTTL })

/-- `proxyManifestStore.Put`: always `Not supported`; nothing is modified. -/
def ProxyManifestStore.Put (pms : ProxyManifestStore) (_m : SignedManifest) :
    Except RegErr Unit × ProxyManifestStore :=
  (.error (.msg "Not supported"), pms)

/-- `proxyManifestStore.Delete`: always `Not supported`; nothing is
modified. -/
def ProxyManifestStore.Delete (pms : ProxyManifestStore) (_d : Digest) :
    Except RegErr Unit × ProxyManifestStore :=
  (.error (.msg "Not supported"), pms)

/-- The digest a tag's current link resolves to in a given store state:
the parsed payload of the current link file, when present and parseable. -/
def readCurrentDigest (files : List (RegPath × String)) (name tag : String) :
    Option Digest :=
  match lookupFile files (manifestTagCurrentPath name tag) with
  | some c => parseDigest c
  | none => none

/-- A tag's current link is well formed: either absent, or parseable. -/
def currentLinkOk (files : List (RegPath × String)) (name tag : String) : Bool :=
  match lookupFile files (manifestTagCurrentPath name tag) with
  | some c => (parseDigest c).isSome
  | none => true

/-- A remote registry client whose every response is an error. -/
def sampleRemoteErr : RemoteManifests :=
  ⟨fun _ => .error (.msg "remote unreachable"), fun _ => .error (.msg "remote unreachable")⟩

def sampleRemoteOk : RemoteManifests :=
  ⟨fun _ => .ok ⟨"payload"⟩, fun _ => .ok ⟨"payload"⟩⟩

def sampleProxyErr : ProxyManifestStore :=
  { localManifests := [], remoteManifests := sampleRemoteErr, repositoryName := "repo",
    digestFromBytes := fun s => ⟨"alg", s⟩, scheduler := [] }

def sampleProxyOk : ProxyManifestStore :=
  { localManifests := [], remoteManifests := sampleRemoteOk, repositoryName := "repo",
    digestFromBytes := fun s => ⟨"alg", s⟩, scheduler := [] }

/-- A concrete store with two tags whose current links hold distinct
digests, plus a third tag that has a history entry but no current link. -/
def sampleTagFiles : List (RegPath × String) :=
  [(manifestTagCurrentPath "repo" "v1", digestString ⟨"sha256", "aa"⟩),
    (manifestTagCurrentPath "repo" "v2", digestString ⟨"sha256", "bb"⟩),
    (manifestTagIndexEntryLinkPath "repo" "v3" ⟨"sha256", "cc"⟩,
      digestString ⟨"sha256", "cc"⟩)]

/-! ## Basic lemmas -/

theorem lookupFile_cons (q : RegPath) (c : String) (fs : List (RegPath × String))
    (p : RegPath) :
    lookupFile ((q, c) :: fs) p = if q = p then some c else lookupFile fs p := rfl

theorem splitAtColon_append (a h : List Char) (ha : ∀ c ∈ a, c ≠ ':') :
    splitAtColon (a ++ ':' :: h) = some (a, h) := by
  induction a with
  | nil => simp [splitAtColon]
  | cons c rest ih =>
    have hc : c ≠ ':' := ha c (by simp)
    simp only [List.cons_append, splitAtColon, if_neg hc, List.append_eq]
    rw [ih (fun x hx => ha x (by simp [hx]))]
    rfl

theorem stripNewline_of_ne (cs : List Char) (h : ∀ c ∈ cs, c ≠ '\n') :
    stripNewline cs = cs := by
  induction cs with
  | nil => rfl
  | cons c rest ih =>
    by_cases hr : rest = []
    · subst hr
      simp [stripNewline, h c (by simp)]
    · simp only [stripNewline, if_neg hr]
      rw [ih (fun x hx => h x (by simp [hx]))]

theorem digestString_data (d : Digest) :
    (digestString d).data = d.algorithm.data ++ ':' :: d.hex.data := by
  cases d with
  | mk a h =>
    cases a with
    | mk ad =>
      cases h with
      | mk hd => simp [digestString, String.data_append]

theorem parse_digestString (d : Digest) (hv : d.valid = true) :
    parseDigest (digestString d) = some d := by
  have hva : !d.algorithm.data.isEmpty && d.algorithm.data.all isAlgChar = true := by
    have := hv
    unfold Digest.valid at this
    simp only [Bool.and_eq_true] at this
    simp [this.1.1.1, this.1.1.2]
  have hvh : !d.hex.data.isEmpty && d.hex.data.all isEncChar = true := by
    have := hv
    unfold Digest.valid at this
    simp only [Bool.and_eq_true] at this
    simp [this.1.2, this.2]
  have halg : ∀ c ∈ d.algorithm.data, isAlgChar c = true := by
    intro c hc
    exact List.all_eq_true.mp (by simp_all) c hc
  have hhex : ∀ c ∈ d.hex.data, isEncChar c = true := by
    intro c hc
    exact List.all_eq_true.mp (by simp_all) c hc
  have hnl : ∀ c ∈ (digestString d).data, c ≠ '\n' := by
    rw [digestString_data]
    intro c hc
    rcases List.mem_append.mp hc with h1 | h2
    · intro he
      subst he
      have := halg _ h1
      simp [isAlgChar] at this
    · rcases List.mem_cons.mp h2 with h3 | h4
      · subst h3
        decide
      · intro he
        subst he
        have := hhex _ h4
        simp [isEncChar] at this
  have hnc : ∀ c ∈ d.algorithm.data, c ≠ ':' := by
    intro c hc he
    subst he
    have := halg _ hc
    simp [isAlgChar] at this
  unfold parseDigest
  rw [stripNewline_of_ne _ hnl, digestString_data, splitAtColon_append _ _ hnc]
  simp [hv]

theorem length_manifestTagCurrentPath (name tag : String) :
    (manifestTagCurrentPath name tag).length = 10 := by
  simp [manifestTagCurrentPath, manifestTagPath, manifestTagsPath, rootRegPath]

theorem length_manifestTagIndexEntryLinkPath (name tag : String) (d : Digest) :
    (manifestTagIndexEntryLinkPath name tag d).length = 12 := by
  simp [manifestTagIndexEntryLinkPath, manifestTagIndexPath, manifestTagPath,
    manifestTagsPath, rootRegPath]

theorem currentPath_ne_indexEntryPath (name tag : String) (d : Digest) :
    manifestTagCurrentPath name tag ≠ manifestTagIndexEntryLinkPath name tag d := by
  intro h
  have hl := congrArg List.length h
  rw [length_manifestTagCurrentPath, length_manifestTagIndexEntryLinkPath] at hl
  exact absurd hl (by decide)

theorem tagStoreTag_fault_free (name tag : String) (desc : Descriptor)
    (files : List (RegPath × String)) (fs : List (Option DriverErr)) :
    tagStoreTag name ⟨files, none :: none :: fs⟩ tag desc =
      (.ok (),
        ⟨(manifestTagCurrentPath name tag, digestString desc.digest) ::
            (manifestTagIndexEntryLinkPath name tag desc.digest, digestString desc.digest) ::
            files,
          fs⟩) := by
  simp [tagStoreTag, blobStoreLink, driverPutContent, DriverState.popFault, insertFile]

/-- C1: after a successful `Tag(t, d)` with no intervening writer on the tag,
`Get(t)` returns a descriptor whose digest equals `d.Digest`. -/
theorem tagStore_tag_then_get (name tag : String) (desc : Descriptor)
    (files : List (RegPath × String)) (fs : List (Option DriverErr))
    (hv : desc.digest.valid = true) :
    (tagStoreTag name ⟨files, none :: none :: none :: fs⟩ tag desc).1 = .ok () ∧
    (tagStoreGet name (tagStoreTag name ⟨files, none :: none :: none :: fs⟩ tag desc).2
        tag).1 =
      .ok { mediaType := "", digest := desc.digest, size := 0 } := by
  rw [tagStoreTag_fault_free]
  refine ⟨rfl, ?_⟩
  simp [tagStoreGet, blobStoreReadlink, driverGetContent, DriverState.popFault,
    lookupFile_cons, parse_digestString _ hv]

theorem tagStore_tag_then_get_witness :
    (Digest.valid ⟨"sha256", "ab"⟩ = true) ∧
    ((tagStoreTag "repo" ⟨[], [none, none, none]⟩ "v1" ⟨"", ⟨"sha256", "ab"⟩, 0⟩).1 =
        .ok () ∧
      (tagStoreGet "repo"
          (tagStoreTag "repo" ⟨[], [none, none, none]⟩ "v1" ⟨"", ⟨"sha256", "ab"⟩, 0⟩).2
          "v1").1 =
        .ok { mediaType := "", digest := ⟨"sha256", "ab"⟩, size := 0 }) :=
  ⟨by decide, tagStore_tag_then_get "repo" "v1" ⟨"", ⟨"sha256", "ab"⟩, 0⟩ [] [] (by decide)⟩

/-- C2: `Tag` performs its two writes in a fixed order — history index entry
first, current link second.  If the index-entry write fails, `Tag` returns
that error and the store (in particular the current link) is unchanged; if
the second write fails, the index entry has been written but the current
link is still unchanged. -/
theorem tagStore_tag_write_order (name tag : String) (desc : Descriptor)
    (files : List (RegPath × String)) (fs : List (Option DriverErr)) (e : DriverErr) :
    tagStoreTag name ⟨files, some e :: fs⟩ tag desc =
      (.error (.driver e), ⟨files, fs⟩) ∧
    ((tagStoreTag name ⟨files, none :: some e :: fs⟩ tag desc).1 = .error (.driver e) ∧
      (tagStoreTag name ⟨files, none :: some e :: fs⟩ tag desc).2.files =
        insertFile files (manifestTagIndexEntryLinkPath name tag desc.digest)
          (digestString desc.digest) ∧
      lookupFile (tagStoreTag name ⟨files, none :: some e :: fs⟩ tag desc).2.files
          (manifestTagCurrentPath name tag) =
        lookupFile files (manifestTagCurrentPath name tag)) := by
  have h2 : tagStoreTag name ⟨files, none :: some e :: fs⟩ tag desc =
      (.error (.driver e),
        ⟨(manifestTagIndexEntryLinkPath name tag desc.digest, digestString desc.digest) ::
            files,
          fs⟩) := by
    simp [tagStoreTag, blobStoreLink, driverPutContent, DriverState.popFault, insertFile]
  refine ⟨?_, ?_, ?_, ?_⟩
  · simp [tagStoreTag, blobStoreLink, driverPutContent, DriverState.popFault]
  · simp [h2]
  · simp [h2, insertFile]
  · rw [h2]
    exact (lookupFile_cons _ _ _ _).trans
      (if_neg (Ne.symm (currentPath_ne_indexEntryPath name tag desc.digest)))

/-- C8: `Get(tag)` returns `ErrTagUnknown` exactly in the two situations
where reading the current link fails with `PathNotFound` (the link file is
absent, or the driver reports `PathNotFound`); any other read error — an
injected driver I/O error or an unparseable link payload — is propagated
unchanged, and on success `Get` returns a descriptor carrying the linked
digest. -/
theorem tagStore_get_spec (name tag : String) (files : List (RegPath × String))
    (fs : List (Option DriverErr)) :
    (lookupFile files (manifestTagCurrentPath name tag) = none →
      tagStoreGet name ⟨files, none :: fs⟩ tag =
        (.error (.tagUnknown tag), ⟨files, fs⟩)) ∧
    (∀ p, tagStoreGet name ⟨files, some (DriverErr.pathNotFound p) :: fs⟩ tag =
      (.error (.tagUnknown tag), ⟨files, fs⟩)) ∧
    (∀ n, tagStoreGet name ⟨files, some (DriverErr.io n) :: fs⟩ tag =
      (.error (.driver (.io n)), ⟨files, fs⟩)) ∧
    (∀ c, lookupFile files (manifestTagCurrentPath name tag) = some c →
      parseDigest c = none →
      tagStoreGet name ⟨files, none :: fs⟩ tag =
        (.error (.invalidDigest c), ⟨files, fs⟩)) ∧
    (∀ c dg, lookupFile files (manifestTagCurrentPath name tag) = some c →
      parseDigest c = some dg →
      tagStoreGet name ⟨files, none :: fs⟩ tag =
        (.ok { mediaType := "", digest := dg, size := 0 }, ⟨files, fs⟩)) := by
  refine ⟨?_, ?_, ?_, ?_, ?_⟩
  · intro h
    simp [tagStoreGet, blobStoreReadlink, driverGetContent, DriverState.popFault, h]
  · intro p
    simp [tagStoreGet, blobStoreReadlink, driverGetContent, DriverState.popFault]
  · intro n
    simp [tagStoreGet, blobStoreReadlink, driverGetContent, DriverState.popFault]
  · intro c h hp
    simp [tagStoreGet, blobStoreReadlink, driverGetContent, DriverState.popFault, h, hp]
  · intro c dg h hp
    simp [tagStoreGet, blobStoreReadlink, driverGetContent, DriverState.popFault, h, hp]

theorem tagStore_get_spec_witness :
    tagStoreGet "repo" ⟨[], [none]⟩ "v1" =
      (.error (.tagUnknown "v1"), ⟨[], []⟩) :=
  (tagStore_get_spec "repo" "v1" [] []).1 rfl

/-- C5: the manifest service resolves manifest links through the canonical
revision link path first and the legacy v2.1.0 layer link path second, so a
manifest linked only under the legacy location is still readable while a
present canonical link wins; writes go through the canonical revision link
path listed first. -/
theorem manifests_link_path_spec (name : String) (files : List (RegPath × String))
    (fs : List (Option DriverErr)) (d d1 : Digest) (desc : Descriptor) :
    (lookupFile files (manifestRevisionLinkPath name d) = none →
      lookupFile files (blobLinkPath name d) = some (digestString d1) →
      d1.valid = true →
      (resolveLinkPathFns manifestLinkPathFns name ⟨files, []⟩ d).1 = .ok d1) ∧
    (lookupFile files (manifestRevisionLinkPath name d) = some (digestString d1) →
      d1.valid = true →
      (resolveLinkPathFns manifestLinkPathFns name ⟨files, []⟩ d).1 = .ok d1) ∧
    (writeLinkFirstFn manifestLinkPathFns name ⟨files, none :: fs⟩ desc =
      (.ok (),
        ⟨insertFile files (manifestRevisionLinkPath name desc.digest)
            (digestString desc.digest),
          fs⟩)) := by
  refine ⟨?_, ?_, ?_⟩
  · intro h1 h2 hv
    simp [resolveLinkPathFns, manifestLinkPathFns, blobStoreReadlink, driverGetContent,
      DriverState.popFault, h1, h2, parse_digestString _ hv]
  · intro h1 hv
    simp [resolveLinkPathFns, manifestLinkPathFns, blobStoreReadlink, driverGetContent,
      DriverState.popFault, h1, parse_digestString _ hv]
  · simp [writeLinkFirstFn, manifestLinkPathFns, blobStoreLink, driverPutContent,
      DriverState.popFault]

theorem manifests_link_path_spec_witness :
    (resolveLinkPathFns manifestLinkPathFns "repo"
        ⟨[(blobLinkPath "repo" ⟨"sha256", "ab"⟩, digestString ⟨"sha256", "ab"⟩)], []⟩
        ⟨"sha256", "ab"⟩).1 =
      .ok ⟨"sha256", "ab"⟩ :=
  (manifests_link_path_spec "repo"
      [(blobLinkPath "repo" ⟨"sha256", "ab"⟩, digestString ⟨"sha256", "ab"⟩)] []
      ⟨"sha256", "ab"⟩ ⟨"sha256", "ab"⟩ ⟨"", ⟨"sha256", "ab"⟩, 0⟩).1
    (by decide) (by decide) (by decide)

/-- C3: `GetByTag` always consults the remote first and returns the remote's
error unchanged regardless of local state; on a remote success it hashes the
fetched payload, returns the fetched manifest without writing when that
digest already exists locally, and otherwise stores it locally and schedules
an eviction entry for the repository. -/
theorem proxy_getByTag_spec (pms : ProxyManifestStore) (tag : String) :
    (∀ e, pms.remoteManifests.getByTag tag = .error e →
      pms.GetByTag tag = (.error e, pms)) ∧
    (∀ sm, pms.remoteManifests.getByTag tag = .ok sm →
      localManifestsExists pms.localManifests (pms.digestFromBytes sm.payload) = true →
      pms.GetByTag tag = (.ok sm, pms)) ∧
    (∀ sm, pms.remoteManifests.getByTag tag = .ok sm →
      localManifestsExists pms.localManifests (pms.digestFromBytes sm.payload) = false →
      pms.GetByTag tag =
        (.ok sm,
          { pms with
            localManifests := localManifestsPut pms.digestFromBytes pms.localManifests sm,
            scheduler :=
              schedulerAddManifest pms.scheduler pms.repositoryName repositoryTTL })) := by
  refine ⟨?_, ?_, ?_⟩
  · intro e h
    simp [ProxyManifestStore.GetByTag, h]
  · intro sm h hl
    simp [ProxyManifestStore.GetByTag, h, hl]
  · intro sm h hl
    simp [ProxyManifestStore.GetByTag, h, hl]

theorem proxy_getByTag_spec_witness :
    sampleProxyErr.GetByTag "latest" = (.error (.msg "remote unreachable"), sampleProxyErr) :=
  (proxy_getByTag_spec sampleProxyErr "latest").1 (.msg "remote unreachable") rfl

/-- C4: `Get(digest)` returns the local manifest when the local lookup
succeeds; on a local miss it fetches the manifest from the remote, stores it
locally and schedules an eviction entry with the fixed `repositoryTTL` of
ten minutes. -/
theorem proxy_get_spec (pms : ProxyManifestStore) (d : Digest) :
    (∀ sm, localManifestsGet pms.localManifests d = .ok sm →
      pms.Get d = (.ok sm, pms)) ∧
    (∀ e sm, localManifestsGet pms.localManifests d = .error e →
      pms.remoteManifests.get d = .ok sm →
      pms.Get d =
        (.ok sm,
          { pms with
            localManifests := localManifestsPut pms.digestFromBytes pms.localManifests sm,
            scheduler :=
              schedulerAddManifest pms.scheduler pms.repositoryName repositoryTTL })) ∧
    repositoryTTL = 10 * minuteNs := by
  refine ⟨?_, ?_, rfl⟩
  · intro sm h
    simp [ProxyManifestStore.Get, h]
  · intro e sm h hr
    simp [ProxyManifestStore.Get, h, hr]

theorem proxy_get_spec_witness :
    sampleProxyOk.Get ⟨"alg", "zz"⟩ =
      (.ok ⟨"payload"⟩,
        { sampleProxyOk with
          localManifests :=
            localManifestsPut sampleProxyOk.digestFromBytes sampleProxyOk.localManifests
              ⟨"payload"⟩,
          scheduler :=
            schedulerAddManifest sampleProxyOk.scheduler sampleProxyOk.repositoryName
              repositoryTTL }) :=
  (proxy_get_spec sampleProxyOk ⟨"alg", "zz"⟩).2.1 (.manifestUnknown ⟨"alg", "zz"⟩)
    ⟨"payload"⟩ rfl rfl

/-- C9: the proxy manifest store's `Put` and `Delete` always fail with a
`Not supported` error, for all inputs and all states, and modify neither the
local nor the remote state. -/
theorem proxy_put_delete_not_supported (pms : ProxyManifestStore)
    (m : SignedManifest) (d : Digest) :
    pms.Put m = (.error (.msg "Not supported"), pms) ∧
    pms.Delete d = (.error (.msg "Not supported"), pms) :=
  ⟨rfl, rfl⟩

/-! ## Sorting lemmas -/

theorem mem_insertSorted (x a : String) (l : List String) :
    a ∈ insertSorted x l ↔ a = x ∨ a ∈ l := by
  induction l with
  | nil => simp [insertSorted]
  | cons y ys ih =>
    by_cases h : x ≤ y
    · simp [insertSorted, h]
    · simp only [insertSorted, if_neg h, List.mem_cons, ih]
      tauto

theorem sorted_insertSorted (x : String) (l : List String)
    (h : List.Sorted (· ≤ ·) l) :
    List.Sorted (· ≤ ·) (insertSorted x l) := by
  induction l with
  | nil => simp [insertSorted]
  | cons y ys ih =>
    rw [List.sorted_cons] at h
    by_cases hx : x ≤ y
    · simp only [insertSorted, if_pos hx, List.sorted_cons]
      refine ⟨?_, h.1, h.2⟩
      intro b hb
      rcases List.mem_cons.mp hb with hb1 | hb2
      · exact hb1 ▸ hx
      · exact le_trans hx (h.1 b hb2)
    · simp only [insertSorted, if_neg hx, List.sorted_cons]
      refine ⟨?_, ih h.2⟩
      intro b hb
      rcases (mem_insertSorted x b ys).mp hb with hb1 | hb2
      · exact hb1 ▸ le_of_not_le hx
      · exact h.1 b hb2

theorem mem_sortStrings (a : String) (l : List String) :
    a ∈ sortStrings l ↔ a ∈ l := by
  induction l with
  | nil => simp [sortStrings]
  | cons x xs ih =>
    simp only [sortStrings, List.foldr_cons, mem_insertSorted, List.mem_cons]
    rw [show xs.foldr insertSorted [] = sortStrings xs from rfl, ih]

theorem sorted_sortStrings (l : List String) :
    List.Sorted (· ≤ ·) (sortStrings l) := by
  induction l with
  | nil => simp [sortStrings]
  | cons x xs ih => exact sorted_insertSorted x _ ih

/-! ## Directory-listing lemmas -/

theorem segsLead_iff (dir p : RegPath) :
    segsLead dir p = true ↔ ∃ r, p = dir ++ r := by
  induction dir generalizing p with
  | nil => simp [segsLead]
  | cons d ds ih =>
    cases p with
    | nil =>
      simp only [segsLead, List.cons_append]
      constructor
      · intro h
        exact absurd h (by simp)
      · rintro ⟨r, hr⟩
        exact absurd hr (by simp)
    | cons q qs =>
      simp only [segsLead, Bool.and_eq_true, decide_eq_true_eq, ih, List.cons_append,
        List.cons.injEq]
      constructor
      · rintro ⟨hd, r, hr⟩
        exact ⟨r, hd.symm, hr⟩
      · rintro ⟨r, hd, hr⟩
        exact ⟨hd.symm, r, hr⟩

theorem lastSeg_append_singleton (l : List String) (a : String) :
    lastSeg (l ++ [a]) = a := by
  induction l with
  | nil => simp [lastSeg]
  | cons x xs ih => simp [lastSeg, ih]

theorem mem_childrenOf (files : List (RegPath × String)) (dir c : RegPath) :
    c ∈ childrenOf files dir ↔
      ∃ pc ∈ files, segsLead dir pc.1 = true ∧ dir.length < pc.1.length ∧
        c = dir ++ [(pc.1.drop dir.length).headD ""] := by
  unfold childrenOf
  rw [List.mem_dedup, List.mem_filterMap]
  constructor
  · rintro ⟨pc, hpc, heq⟩
    split at heq
    case isTrue h =>
      rw [Bool.and_eq_true, decide_eq_true_eq] at h
      exact ⟨pc, hpc, h.1, h.2, (Option.some.injEq _ _).mp heq |>.symm⟩
    case isFalse h => exact absurd heq (by simp)
  · rintro ⟨pc, hpc, h1, h2, h3⟩
    refine ⟨pc, hpc, ?_⟩
    rw [if_pos (by rw [Bool.and_eq_true, decide_eq_true_eq]; exact ⟨h1, h2⟩), h3]

theorem tagStoreAll_empty (name : String) (files : List (RegPath × String))
    (h : childrenOf files (manifestTagsPath name) = []) :
    tagStoreAll name ⟨files, []⟩ = (.error (.repositoryUnknown name), ⟨files, []⟩) := by
  simp [tagStoreAll, driverList, DriverState.popFault, h]

theorem tagStoreAll_ok (name : String) (files : List (RegPath × String))
    (h : childrenOf files (manifestTagsPath name) ≠ []) :
    tagStoreAll name ⟨files, []⟩ =
      (.ok (sortStrings ((childrenOf files (manifestTagsPath name)).map lastSeg)),
        ⟨files, []⟩) := by
  simp [tagStoreAll, driverList, DriverState.popFault, List.isEmpty_iff, h]

theorem mem_tagsListing (files : List (RegPath × String)) (name t : String) :
    t ∈ (childrenOf files (manifestTagsPath name)).map lastSeg ↔
      ∃ pc ∈ files, segsLead (manifestTagPath name t) pc.1 = true := by
  rw [List.mem_map]
  constructor
  · rintro ⟨c, hc, hlast⟩
    rcases (mem_childrenOf files _ c).mp hc with ⟨pc, hpc, h1, h2, h3⟩
    rcases (segsLead_iff _ _).mp h1 with ⟨r, hr⟩
    have hrne : r ≠ [] := by
      intro hrn
      rw [hrn, List.append_nil] at hr
      rw [hr] at h2
      exact lt_irrefl _ h2
    rcases List.exists_cons_of_ne_nil hrne with ⟨hd, tl, hcons⟩
    have hseg : (pc.1.drop (manifestTagsPath name).length).headD "" = hd := by
      rw [hr, List.drop_left, hcons]
      rfl
    have ht : t = hd := by
      rw [← hlast, h3, lastSeg_append_singleton, hseg]
    refine ⟨pc, hpc, (segsLead_iff _ _).mpr ⟨tl, ?_⟩⟩
    rw [hr, hcons, ht]
    simp [manifestTagPath]
  · rintro ⟨pc, hpc, hl⟩
    rcases (segsLead_iff _ _).mp hl with ⟨r, hr⟩
    have hr2 : pc.1 = manifestTagsPath name ++ (t :: r) := by
      rw [hr]
      simp [manifestTagPath]
    refine ⟨manifestTagsPath name ++ [(pc.1.drop (manifestTagsPath name).length).headD ""],
      (mem_childrenOf files _ _).mpr ⟨pc, hpc, ?_, ?_, rfl⟩, ?_⟩
    · exact (segsLead_iff _ _).mpr ⟨t :: r, hr2⟩
    · rw [hr2]
      simp
    · rw [lastSeg_append_singleton, hr2, List.drop_left]
      rfl

/-- C7: whenever the repository's tags directory exists (some object is
stored strictly below it), `All` succeeds and returns exactly the tag names
that have objects below their tag directory, sorted lexicographically. -/
theorem tagStore_all_sorted (name : String) (files : List (RegPath × String))
    (hex : ∃ pc ∈ files, segsLead (manifestTagsPath name) pc.1 = true ∧
      (manifestTagsPath name).length < pc.1.length) :
    ∃ ts, tagStoreAll name ⟨files, []⟩ = (.ok ts, ⟨files, []⟩) ∧
      List.Sorted (· ≤ ·) ts ∧
      ∀ t, t ∈ ts ↔ ∃ pc ∈ files, segsLead (manifestTagPath name t) pc.1 = true := by
  have hne : childrenOf files (manifestTagsPath name) ≠ [] := by
    rcases hex with ⟨pc, hpc, h1, h2⟩
    intro h
    have hmem : manifestTagsPath name ++
        [(pc.1.drop (manifestTagsPath name).length).headD ""] ∈
          childrenOf files (manifestTagsPath name) :=
      (mem_childrenOf files _ _).mpr ⟨pc, hpc, h1, h2, rfl⟩
    rw [h] at hmem
    exact absurd hmem (List.not_mem_nil _)
  refine ⟨_, tagStoreAll_ok name files hne, sorted_sortStrings _, ?_⟩
  intro t
  rw [mem_sortStrings, mem_tagsListing]

theorem tagStore_all_sorted_witness :
    ∃ ts, tagStoreAll "repo" ⟨[(manifestTagCurrentPath "repo" "v1", "x")], []⟩ =
        (.ok ts, ⟨[(manifestTagCurrentPath "repo" "v1", "x")], []⟩) ∧
      List.Sorted (· ≤ ·) ts ∧
      ∀ t, t ∈ ts ↔ ∃ pc ∈ [(manifestTagCurrentPath "repo" "v1", "x")],
        segsLead (manifestTagPath "repo" t) pc.1 = true :=
  tagStore_all_sorted "repo" [(manifestTagCurrentPath "repo" "v1", "x")] (by decide)

theorem lookupLoop_fault_free (name : String) (desc : Descriptor)
    (files : List (RegPath × String)) (ts : List String)
    (H : ∀ t ∈ ts, currentLinkOk files name t = true) :
    lookupLoop name desc ts ⟨files, []⟩ =
      (.ok (ts.filter (fun t => readCurrentDigest files name t = some desc.digest)),
        ⟨files, []⟩) := by
  induction ts with
  | nil => rfl
  | cons t ts ih =>
    have ht := H t (by simp)
    have hrest : ∀ x ∈ ts, currentLinkOk files name x = true :=
      fun x hx => H x (by simp [hx])
    cases hc : lookupFile files (manifestTagCurrentPath name t) with
    | none =>
      have hrc : readCurrentDigest files name t = none := by
        simp [readCurrentDigest, hc]
      simp [lookupLoop, blobStoreReadlink, driverGetContent, DriverState.popFault, hc,
        ih hrest, List.filter_cons, hrc]
    | some c =>
      cases hp : parseDigest c with
      | none =>
        exfalso
        rw [currentLinkOk, hc] at ht
        simp [hp] at ht
      | some dg =>
        have hrc : readCurrentDigest files name t = some dg := by
          simp [readCurrentDigest, hc, hp]
        by_cases he : dg = desc.digest
        · simp [lookupLoop, blobStoreReadlink, driverGetContent, DriverState.popFault,
            hc, hp, ih hrest, List.filter_cons, hrc, he]
        · simp [lookupLoop, blobStoreReadlink, driverGetContent, DriverState.popFault,
            hc, hp, ih hrest, List.filter_cons, hrc, he]

theorem childrenOf_ne_nil_of_under (files : List (RegPath × String)) (dir : RegPath)
    (t : String) (h : ∃ pc ∈ files, segsLead (dir ++ [t]) pc.1 = true) :
    childrenOf files dir ≠ [] := by
  rcases h with ⟨pc, hpc, hl⟩
  rcases (segsLead_iff _ _).mp hl with ⟨r, hr⟩
  intro hn
  have hmem : dir ++ [(pc.1.drop dir.length).headD ""] ∈ childrenOf files dir := by
    apply (mem_childrenOf files dir _).mpr
    refine ⟨pc, hpc, ?_, ?_, rfl⟩
    · refine (segsLead_iff _ _).mpr ⟨t :: r, ?_⟩
      rw [hr]
      simp
    · rw [hr]
      simp [List.length_append]
  rw [hn] at hmem
  exact absurd hmem (List.not_mem_nil _)

/-- C6: on a fault-free store whose listed tags all have well-formed (or
absent) current links, `Lookup(d)` succeeds and returns exactly the tags
that have objects below their tag directory and whose current link resolves
to a digest equal to `d.Digest`; a tag whose current link is absent
(`PathNotFound`) is skipped rather than failing the lookup. -/
theorem tagStore_lookup_exact (name : String) (files : List (RegPath × String))
    (desc : Descriptor)
    (H : ∀ t ∈ (childrenOf files (manifestTagsPath name)).map lastSeg,
      currentLinkOk files name t = true) :
    ∃ ts, tagStoreLookup name ⟨files, []⟩ desc = (.ok ts, ⟨files, []⟩) ∧
      ∀ t, t ∈ ts ↔
        ((∃ pc ∈ files, segsLead (manifestTagPath name t) pc.1 = true) ∧
          readCurrentDigest files name t = some desc.digest) := by
  by_cases hne : childrenOf files (manifestTagsPath name) = []
  · refine ⟨[], ?_, ?_⟩
    · simp [tagStoreLookup, tagStoreAll_empty name files hne, lookupLoop]
    · intro t
      simp only [List.not_mem_nil, false_iff]
      rintro ⟨hu, _⟩
      exact absurd hne (childrenOf_ne_nil_of_under files _ t hu)
  · have H2 : ∀ t ∈ sortStrings ((childrenOf files (manifestTagsPath name)).map lastSeg),
        currentLinkOk files name t = true :=
      fun t ht => H t ((mem_sortStrings t _).mp ht)
    refine ⟨(sortStrings ((childrenOf files (manifestTagsPath name)).map lastSeg)).filter
        (fun t => readCurrentDigest files name t = some desc.digest), ?_, ?_⟩
    · rw [tagStoreLookup, tagStoreAll_ok name files hne]
      exact lookupLoop_fault_free name desc files _ H2
    · intro t
      rw [List.mem_filter, mem_sortStrings, mem_tagsListing]
      simp

/-- C10: when `All` fails with `ErrRepositoryUnknown` (no tags directory at
all), `Lookup` swallows that error and returns an empty tag list with no
error, for every descriptor. -/
theorem tagStore_lookup_repoUnknown (name n2 : String) (s : DriverState)
    (desc : Descriptor)
    (h : (tagStoreAll name s).1 = .error (.repositoryUnknown n2)) :
    tagStoreLookup name s desc = (.ok [], (tagStoreAll name s).2) := by
  have hpair : tagStoreAll name s =
      (.error (.repositoryUnknown n2), (tagStoreAll name s).2) := by
    rw [← h]
  rw [tagStoreLookup, hpair]
  rfl

theorem tagStore_lookup_repoUnknown_witness :
    tagStoreLookup "repo" ⟨[], []⟩ ⟨"", ⟨"sha256", "ab"⟩, 0⟩ =
      (.ok [], (tagStoreAll "repo" ⟨[], []⟩).2) :=
  tagStore_lookup_repoUnknown "repo" "repo" ⟨[], []⟩ ⟨"", ⟨"sha256", "ab"⟩, 0⟩ rfl

theorem tagStore_lookup_exact_witness :
    ∃ ts, tagStoreLookup "repo" ⟨sampleTagFiles, []⟩ ⟨"", ⟨"sha256", "aa"⟩, 0⟩ =
        (.ok ts, ⟨sampleTagFiles, []⟩) ∧
      ∀ t, t ∈ ts ↔
        ((∃ pc ∈ sampleTagFiles, segsLead (manifestTagPath "repo" t) pc.1 = true) ∧
          readCurrentDigest sampleTagFiles "repo" t = some ⟨"sha256", "aa"⟩) :=
  tagStore_lookup_exact "repo" sampleTagFiles ⟨"", ⟨"sha256", "aa"⟩, 0⟩ (by decide)
